import Mathlib

set_option maxHeartbeats 1000000
set_option linter.unusedVariables false

/-!
Verification development for the RCS (restricted cubic spline) dose-response
analysis pipeline (source: 02_rcs_analysis.py).  The numerical code is shallowly
embedded over ℚ (numpy float arrays become lists of rationals; every arithmetic
step of the source is a field operation, max, or power, all exact over ℚ).
The GLM solver and the Wald test are external library calls (statsmodels); the
embedding keeps the exact call the script constructs (design matrix, outcome,
family, weight arguments) and abstracts the solver's numeric output behind a
function parameter.  Categorical covariate labels are modelled as naturals,
whose order stands in for the lexicographic order pandas uses on strings.
-/

/-- Floor of a nonnegative rational, as a natural number (used for the
fractional index of the percentile interpolation, which is nonnegative for
percentile levels in [0, 100]). -/
def floorNatQ (q : ℚ) : ℕ := q.num.toNat / q.den

/-- numpy `np.percentile(x, p)` with the default linear-interpolation method:
sort `x`, take the fractional index `h = p/100 * (n-1)`, and interpolate
linearly between the two neighbouring order statistics. -/
def npPercentile (x : List ℚ) (p : ℚ) : ℚ :=
  let s := List.insertionSort (· ≤ ·) x
  let n := s.length
  let h := p / 100 * ((n : ℚ) - 1)
  let i := floorNatQ h
  let lo := s.getD i 0
  let hi := s.getD (min (i + 1) (n - 1)) 0
  lo + (h - (i : ℚ)) * (hi - lo)

/-- numpy `np.linspace(lo, hi, n)`: `n` evenly spaced points from `lo` to `hi`
inclusive. -/
def linspaceQ (lo hi : ℚ) (n : ℕ) : List ℚ :=
  (List.range n).map (fun i => lo + (i : ℚ) * (hi - lo) / ((n : ℚ) - 1))

/-- numpy `np.mean`. -/
def npMean (x : List ℚ) : ℚ := x.sum / (x.length : ℚ)

/-- numpy `np.median`: middle order statistic, or the average of the two middle
ones for even length. -/
def npMedian (x : List ℚ) : ℚ :=
  let s := List.insertionSort (· ≤ ·) x
  let n := s.length
  if n % 2 = 1 then s.getD (n / 2) 0
  else (s.getD (n / 2 - 1) 0 + s.getD (n / 2) 0) / 2

/-- The percentile levels used by `create_spline_terms` (02_rcs_analysis.py
lines 77-84): Harrell's percentiles for 3, 4 or 5 knots, otherwise
`np.linspace(0, 100, n_knots)`. -/
def splinePercentiles (n_knots : ℕ) : List ℚ :=
  if n_knots = 4 then [5, 35, 65, 95]
  else if n_knots = 3 then [10, 50, 90]
  else if n_knots = 5 then [5, 55/2, 50, 145/2, 95]
  else (List.range n_knots).map (fun i => (i : ℚ) * 100 / ((n_knots : ℚ) - 1))

/-- One nonlinear restricted-cubic-spline column entry (02_rcs_analysis.py
lines 98-102): the cube of the positive part at knot `i`, with the standard
tail corrections using the last two knots (`knots[-2]`, `knots[-1]`). -/
def rcsTerm (knots : List ℚ) (i : ℕ) (xv : ℚ) : ℚ :=
  let K := knots.length
  (max (xv - knots.getD i 0) 0) ^ 3
    - (max (xv - knots.getD (K - 2) 0) 0) ^ 3 * (knots.getD (K - 1) 0 - knots.getD i 0)
        / (knots.getD (K - 1) 0 - knots.getD (K - 2) 0)
    + (max (xv - knots.getD (K - 1) 0) 0) ^ 3 * (knots.getD (K - 2) 0 - knots.getD i 0)
        / (knots.getD (K - 1) 0 - knots.getD (K - 2) 0)

/-- `create_spline_terms(x, n_knots)` (02_rcs_analysis.py lines 69-104):
computes the knots as percentiles of `x`, then returns the design matrix
(represented column-wise: column 0 is `x`, columns 1..n_knots-2 are the
restricted cubic terms) together with the knots. -/
def create_spline_terms (x : List ℚ) (n_knots : ℕ) : List (List ℚ) × List ℚ :=
  let knots := (splinePercentiles n_knots).map (npPercentile x)
  let X := (List.range (n_knots - 1)).map (fun i =>
    if i = 0 then x else x.map (rcsTerm knots i))
  (X, knots)

/-- The concrete witness input for C3: `x = [0,1,...,19]`. -/
def c3x : List ℚ :=
  [0, 1, 2, 3, 4, 5, 6, 7, 8, 9, 10, 11, 12, 13, 14, 15, 16, 17, 18, 19]

/-- The spline-basis rebuilding step of `calculate_rcs_predictions`
(02_rcs_analysis.py lines 195-198): the 100-point prediction grid is built
with `np.linspace` over the given range and `create_spline_terms` is called on
the grid itself.  The `knots` argument is never used: line 198 discards the
function's `knots` parameter and rebinds the name to the knots recomputed from
the grid's percentiles. -/
def calculate_rcs_predictions_spline (x_range : ℚ × ℚ) (knots : List ℚ) :
    List (List ℚ) × List ℚ :=
  let x_pred := linspaceQ x_range.1 x_range.2 100
  create_spline_terms x_pred 4

/-- The odds-ratio step of `calculate_rcs_predictions` (02_rcs_analysis.py
lines 236-249): given the pointwise linear predictor and standard error over an
`n`-point grid, pick the reference index `n // 2`, form the 95% confidence
bounds on the logit scale (`± 1.96·SE`), and exponentiate everything relative
to the reference logit.  Returns (OR curve, CI lower curve, CI upper curve) as
functions of the grid index (real-valued: `exp` is transcendental). -/
noncomputable def orStep (n : ℕ) (predLogit predSe : ℕ → ℝ) :
    (ℕ → ℝ) × (ℕ → ℝ) × (ℕ → ℝ) :=
  let ref_idx := n / 2
  let ref_logit := predLogit ref_idx
  (fun j => Real.exp (predLogit j - ref_logit),
   fun j => Real.exp (predLogit j - 196/100 * predSe j - ref_logit),
   fun j => Real.exp (predLogit j + 196/100 * predSe j - ref_logit))

/-- Unit row of length `n` with a 1 at position `idx` (02_rcs_analysis.py
lines 265-268; the source's `if idx < n_params` guard is implicit here since
positions `≥ n` do not exist in the row). -/
def unitRow (n idx : ℕ) : List ℚ :=
  (List.range n).map (fun j => if j = idx then (1 : ℚ) else 0)

/-- The contrast matrix of the overall Wald test (02_rcs_analysis.py lines
262-268): one unit row per spline coefficient index `1..n_spline_terms`
(skipping the intercept at index 0). -/
def overallMatrix (nParams nSplineTerms : ℕ) : List (List ℚ) :=
  (List.range nSplineTerms).map (fun i => unitRow nParams (i + 1))

/-- The contrast matrix of the nonlinearity Wald test (02_rcs_analysis.py
lines 275-280): unit rows for all spline coefficient indices except the first
(linear) one. -/
def nonlinearMatrix (nParams nSplineTerms : ℕ) : List (List ℚ) :=
  (((List.range nSplineTerms).map (fun i => i + 1)).drop 1).map (unitRow nParams)

/-- `calculate_p_values` (02_rcs_analysis.py lines 255-293).  The library call
`results.wald_test` is abstracted as `wald`, returning `none` when it raises
(the source's `except` branch returns `(nan, nan)`, its missing-value marker).
With a single spline term the nonlinearity test is skipped and reported as the
missing value `none`. -/
def calculate_p_values (wald : List (List ℚ) → Option ℚ) (nParams nSplineTerms : ℕ) :
    Option ℚ × Option ℚ :=
  match wald (overallMatrix nParams nSplineTerms) with
  | none => (none, none)
  | some p_overall =>
    if nSplineTerms > 1 then
      if (((List.range nSplineTerms).map (fun i => i + 1)).drop 1) ≠ [] then
        match wald (nonlinearMatrix nParams nSplineTerms) with
        | none => (none, none)
        | some p_nonlinear => (some p_overall, some p_nonlinear)
      else (some p_overall, none)
    else (some p_overall, none)

/-- Reverse cumulative minimum (`np.minimum.accumulate` applied to the reversed
array and reversed back): entry `i` of the result is the minimum of entries
`i..end` of the input. -/
def cumMinRev : List ℚ → List ℚ
  | [] => []
  | q :: qs =>
    match cumMinRev qs with
    | [] => [q]
    | r :: rs => min q r :: r :: rs

/-- The Benjamini-Hochberg scaling `p_(i) * m / (i+1)` along the sorted
p-values, `i` being the running rank. -/
def bhScale (m : ℕ) : ℕ → List ℚ → List ℚ
  | _, [] => []
  | i, p :: ps => p * (m : ℚ) / ((i : ℚ) + 1) :: bhScale m (i + 1) ps

instance : DecidableRel (fun (a b : ℕ × ℚ) => a.2 ≤ b.2) :=
  fun a b => inferInstanceAs (Decidable (a.2 ≤ b.2))

instance : IsTotal (ℕ × ℚ) (fun a b => a.2 ≤ b.2) :=
  ⟨fun a b => le_total a.2 b.2⟩

instance : IsTrans (ℕ × ℚ) (fun a b => a.2 ≤ b.2) :=
  ⟨fun a b c hab hbc => le_trans hab hbc⟩

/-- The argsort step of `multipletests(..., method='fdr_bh')`: the p-values
paired with their original indices, sorted by p-value.  (Benjamini-Hochberg is
invariant to how ties are ordered, so the choice of sort is immaterial.) -/
def bhSorted (ps : List ℚ) : List (ℕ × ℚ) :=
  List.insertionSort (fun a b => a.2 ≤ b.2) ps.enum

/-- The corrected values along the sorted order: the sorted p-values divided
by the ecdf factor `(rank+1)/m`, reverse-cumulative-minimized, and clipped
at 1. -/
def bhCorr (ps : List ℚ) : List ℚ :=
  (cumMinRev (bhScale ps.length 0 ((bhSorted ps).map Prod.snd))).map (fun q => min q 1)

/-- `statsmodels.stats.multitest.multipletests(pvals, method='fdr_bh')`
(called at 02_rcs_analysis.py lines 458 and 462): sort the p-values carrying
their original indices, scale, reverse-cumulative-minimize, clip at 1, and
scatter the adjusted values back to the original positions (`unsort`). -/
def fdr_bh (ps : List ℚ) : List ℚ :=
  (List.range ps.length).map (fun k =>
    ((((bhSorted ps).zip (bhCorr ps)).find? (fun a => a.1.1 == k)).map Prod.snd).getD 0)

/-- The scatter step of the FDR block (02_rcs_analysis.py lines 459 and 463):
`results_df.loc[notna-mask, column] = adjusted` writes the adjusted values, in
order, into exactly the positions whose raw p-value is present; missing
positions stay missing in the new column. -/
def scatterBack : List (Option ℚ) → List ℚ → List (Option ℚ)
  | [], _ => []
  | none :: col, adj => none :: scatterBack col adj
  | some _ :: col, [] => none :: scatterBack col []
  | some _ :: col, a :: adj => some a :: scatterBack col adj

/-- Correction of one p-value family (02_rcs_analysis.py lines 454-463):
drop the missing entries, run Benjamini-Hochberg on the remaining ones, and
scatter the adjusted values back to their original positions. -/
def fdrColumn (col : List (Option ℚ)) : List (Option ℚ) :=
  scatterBack col (fdr_bh (col.filterMap id))

/-- The full FDR block (02_rcs_analysis.py lines 452-463): the overall-p family
and the nonlinearity-p family are corrected independently, never jointly. -/
def fdrCorrect (p_overall p_nonlinear : List (Option ℚ)) :
    List (Option ℚ) × List (Option ℚ) :=
  (fdrColumn p_overall, fdrColumn p_nonlinear)

/-- A (possibly missing) p-value lies in [0, 1]. -/
def pvalOk : Option ℚ → Prop
  | none => True
  | some p => 0 ≤ p ∧ p ≤ 1

instance : DecidablePred pvalOk := fun o =>
  match o with
  | none => isTrue trivial
  | some p => inferInstanceAs (Decidable (0 ≤ p ∧ p ≤ 1))

/-- Element-wise relation between a raw p-value column and its adjusted
column: missing stays missing, present values only grow. -/
def optRel : Option ℚ → Option ℚ → Prop
  | none, none => True
  | some p, some a => p ≤ a
  | _, _ => False

/-- One covariate column of the analysis table: the source branches on the
column dtype (02_rcs_analysis.py line 140), so a column is either numeric or
categorical as a whole. -/
inductive CovCol where
  | numeric (vals : List (Option ℚ))
  | categorical (vals : List (Option ℕ))
deriving DecidableEq

/-- Whether the covariate cell in row `i` is present. -/
def CovCol.isSomeAt : CovCol → ℕ → Bool
  | CovCol.numeric vals, i => (vals.getD i none).isSome
  | CovCol.categorical vals, i => (vals.getD i none).isSome

/-- The column view of the data handed to `fit_weighted_rcs_model`: exposure,
outcome and weight columns plus the covariate columns. -/
structure DataTable where
  exposure : List (Option ℚ)
  outcome : List (Option ℚ)
  weight : List (Option ℚ)
  covs : List CovCol
deriving DecidableEq

/-- Row completeness (02_rcs_analysis.py lines 117-120): the row misses none of
exposure, outcome, weight, or any listed covariate. -/
def rowComplete (t : DataTable) (i : ℕ) : Bool :=
  (t.exposure.getD i none).isSome && (t.outcome.getD i none).isSome &&
    (t.weight.getD i none).isSome && t.covs.all (fun c => c.isSomeAt i)

/-- The boolean row mask of `fit_weighted_rcs_model`. -/
def maskList (t : DataTable) : List Bool :=
  (List.range t.exposure.length).map (fun i => rowComplete t i)

/-- Select the masked entries of a column (`values[mask]`). -/
def applyMask {α : Type} (mask : List Bool) (l : List (Option α)) : List α :=
  (mask.zip l).filterMap (fun a => if a.1 then a.2 else none)

/-- Sorted distinct category labels, as pandas `get_dummies` orders them. -/
def sortedUnique (vals : List ℕ) : List ℕ :=
  (List.insertionSort (· ≤ ·) vals).dedup

/-- `pd.Series(vals).mode()[0]`: the most frequent value; pandas returns the
modes sorted, so ties resolve to the smallest label. -/
def pandasMode (vals : List ℕ) : ℕ :=
  match sortedUnique vals with
  | [] => 0
  | c :: cs => cs.foldl (fun best cat =>
      if vals.count cat > vals.count best then cat else best) c

/-- The category labels kept by `pd.get_dummies(..., drop_first=True)`: all
sorted categories except the first. -/
def dummyCategories (vals : List ℕ) : List ℕ := (sortedUnique vals).drop 1

/-- The category actually dropped by `drop_first=True`: the first label in
sorted order. -/
def droppedLevel (vals : List ℕ) : ℕ := (sortedUnique vals).headD 0

/-- The one-hot columns produced by `pd.get_dummies(..., drop_first=True)`. -/
def dummyColumns (vals : List ℕ) : List (List ℚ) :=
  (dummyCategories vals).map (fun c => vals.map (fun v => if v = c then (1:ℚ) else 0))

/-- Covariate-encoding metadata recorded by the fitter (02_rcs_analysis.py
lines 144-159); covariates are identified by their position in the list. -/
inductive CovariateInfo where
  | categorical (categories : List ℕ) (reference : ℕ)
  | continuous (mean median : ℚ)
deriving DecidableEq

/-- Encoding of one covariate column inside `fit_weighted_rcs_model`
(02_rcs_analysis.py lines 136-159): numeric columns pass through (recording
mean and median), categorical columns are one-hot encoded with the first
category dropped while the metadata records the mode as the reference label
(line 149). -/
def encodeCovariate (mask : List Bool) : CovCol → List (List ℚ) × CovariateInfo
  | CovCol.numeric vals =>
    let v := applyMask mask vals
    ([v], CovariateInfo.continuous (npMean v) (npMedian v))
  | CovCol.categorical vals =>
    let v := applyMask mask vals
    (dummyColumns v, CovariateInfo.categorical (dummyCategories v) (pandasMode v))

/-- The exact statsmodels call the script constructs (02_rcs_analysis.py lines
180-181): `sm.GLM(y_clean, X_with_const, family=sm.families.Binomial())`.
The design matrix is stored column-wise; `freq_weights` and `var_weights` are
the (omitted, hence `None`) weight arguments of `sm.GLM`. -/
structure GLMCall where
  endog : List ℚ
  exogCols : List (List ℚ)
  familyBinomial : Bool
  freq_weights : Option (List ℚ)
  var_weights : Option (List ℚ)
deriving DecidableEq

/-- The quintuple returned by a successful `fit_weighted_rcs_model`
(02_rcs_analysis.py line 184); the fitted statsmodels results object is
represented by the `GLMCall` handed to the solver. -/
structure FittedModel where
  glm : GLMCall
  X_spline : List (List ℚ)
  knots : List ℚ
  mask : List Bool
  covariate_info : List CovariateInfo
deriving DecidableEq

/-- `fit_weighted_rcs_model` (02_rcs_analysis.py lines 106-188): mask the
incomplete rows; fail (return `none` for every component, line 127) when fewer
than 50 complete rows remain; otherwise build the spline basis, encode the
covariates, assemble `[intercept | spline | covariates]` and construct the GLM
call.  Line 176 computes the normalized weights `w_clean / mean(w_clean)` but
the value is never used: the GLM is constructed without any weight argument.
`fitOk` abstracts the `try/except` around the library solver (line 186):
when the solver raises, every component is again `None`. -/
def fit_weighted_rcs_model (fitOk : GLMCall → Bool) (t : DataTable) :
    Option FittedModel :=
  let mask := maskList t
  let x_clean := applyMask mask t.exposure
  if x_clean.length < 50 then none
  else
    let y_clean := applyMask mask t.outcome
    let w_clean := applyMask mask t.weight
    let sp := create_spline_terms x_clean 4
    let encoded := t.covs.map (encodeCovariate mask)
    let X_full := sp.1 ++ (encoded.map Prod.fst).flatten
    let X_with_const := (List.replicate x_clean.length (1:ℚ)) :: X_full
    let w_normalized := w_clean.map (fun wv => wv / npMean w_clean)
    let call : GLMCall := ⟨y_clean, X_with_const, true, none, none⟩
    if fitOk call then some ⟨call, sp.1, sp.2, mask, encoded.map Prod.snd⟩
    else none

/-- The merged analysis table read from `clean_data.csv`: the cohort label
column (`dataset`, `true` standing for MHO and `false` for MUO), the exposure
columns, the outcome and weight columns and the covariate columns. -/
structure MergedData where
  dataset : List Bool
  exposures : List (List (Option ℚ))
  outcome : List (Option ℚ)
  weight : List (Option ℚ)
  covs : List CovCol
deriving DecidableEq

/-- The boolean cohort mask `data['dataset'] == outcome_type`. -/
def keepMask (d : MergedData) (label : Bool) : List Bool :=
  d.dataset.map (fun b => b == label)

/-- Keep only the rows selected by the cohort mask. -/
def filterColumn {α : Type} (keep : List Bool) (l : List (Option α)) :
    List (Option α) :=
  (keep.zip l).filterMap (fun a => if a.1 then some a.2 else none)

/-- Cohort filtering of a covariate column. -/
def CovCol.filterRows (keep : List Bool) : CovCol → CovCol
  | CovCol.numeric vals => CovCol.numeric (filterColumn keep vals)
  | CovCol.categorical vals => CovCol.categorical (filterColumn keep vals)

/-- The per-(cohort, exposure) view of the merged table handed to the fitter
(02_rcs_analysis.py lines 362 and 390-392). -/
def subsetTable (d : MergedData) (label : Bool) (e : ℕ) : DataTable :=
  let keep := keepMask d label
  ⟨filterColumn keep (d.exposures.getD e []), filterColumn keep d.outcome,
   filterColumn keep d.weight, d.covs.map (CovCol.filterRows keep)⟩

/-- `len(analysis_data)`: the number of rows of the cohort subset
(02_rcs_analysis.py line 365). -/
def cohortSize (d : MergedData) (label : Bool) : ℕ :=
  (d.dataset.filter (fun b => b == label)).length

/-- `len(analysis_data.dropna(subset=[exp_var, 'outcome_binary', 'WTSAF6YR']))`
(02_rcs_analysis.py lines 379-380). -/
def validCount (t : DataTable) : ℕ :=
  ((List.range t.exposure.length).filter (fun i =>
    (t.exposure.getD i none).isSome && (t.outcome.getD i none).isSome &&
      (t.weight.getD i none).isSome)).length

/-- One row appended to `all_results` (02_rcs_analysis.py lines 436-443). -/
structure ResultRecord where
  outcome : Bool
  exposureIdx : ℕ
  p_overall : Option ℚ
  p_nonlinear : Option ℚ
  n_subjects : ℕ
deriving DecidableEq

/-- The body of the per-exposure loop (02_rcs_analysis.py lines 370-443):
skip a missing exposure column, skip when fewer than 50 rows survive the
three-column dropna, fit the model (skipping on failure), compute the two
p-values with `n_spline_terms=3`, and record the result. -/
def analyzeExposure (wald : List (List ℚ) → Option ℚ) (fitOk : GLMCall → Bool)
    (d : MergedData) (label : Bool) (e : ℕ) : Option ResultRecord :=
  if e < d.exposures.length then
    if validCount (subsetTable d label e) < 50 then none
    else
      match fit_weighted_rcs_model fitOk (subsetTable d label e) with
      | none => none
      | some m =>
        some ⟨label, e,
          (calculate_p_values wald m.glm.exogCols.length 3).1,
          (calculate_p_values wald m.glm.exogCols.length 3).2,
          (applyMask m.mask (subsetTable d label e).exposure).length⟩
  else none

/-- The per-cohort part of the main loop (02_rcs_analysis.py lines 357-443):
when the cohort subset has fewer than 100 rows the whole cohort is skipped
(`continue`, line 367) before any per-exposure work; otherwise every exposure
is analyzed and the successful records collected. -/
def cohortResults (wald : List (List ℚ) → Option ℚ) (fitOk : GLMCall → Bool)
    (d : MergedData) (label : Bool) : List ResultRecord :=
  if cohortSize d label < 100 then []
  else (List.range d.exposures.length).filterMap (analyzeExposure wald fitOk d label)

/-- The full main loop over the two cohorts `["MHO", "MUO"]`
(02_rcs_analysis.py line 357). -/
def mainResults (wald : List (List ℚ) → Option ℚ) (fitOk : GLMCall → Bool)
    (d : MergedData) : List ResultRecord :=
  cohortResults wald fitOk d true ++ cohortResults wald fitOk d false

/-- Concrete fitting input for C1: 50 complete rows, distinct exposures,
alternating outcome, strictly increasing (non-constant) survey weights, no
covariates. -/
def c1table : DataTable :=
  ⟨(List.range 50).map (fun i => some ((i : ℚ))),
   (List.range 50).map (fun i => some (((i % 2 : ℕ)) : ℚ)),
   (List.range 50).map (fun i => some (((i + 1 : ℕ)) : ℚ)),
   []⟩

/-- Concrete categorical covariate values for C8: label 1 once, label 2
twice; the mode is 2, the sorted-first label is 1. -/
def c8vals : List ℕ := [1, 2, 2]

/-- Concrete categorical covariate column for C8's fit-level check: row 0
carries label 1, all other 49 rows carry label 2. -/
def c8catvals : List (Option ℕ) :=
  (List.range 50).map (fun i => if i = 0 then some 1 else some 2)

/-- Concrete fitting input for C8: 50 complete rows with one categorical
covariate column `c8catvals`. -/
def c8table : DataTable :=
  ⟨(List.range 50).map (fun i => some ((i : ℚ))),
   (List.range 50).map (fun i => some (((i % 2 : ℕ)) : ℚ)),
   (List.range 50).map (fun i => some 1),
   [CovCol.categorical c8catvals]⟩

/-- Concrete one-row merged table for C10's witness. -/
def c10data : MergedData :=
  ⟨[true], [[some 1]], [some 1], [some 1], []⟩

/-- C3: for every numeric vector `x` of length ≥ 1 and every knot count
`K ∈ {3,4,5}` with distinct knot values, `create_spline_terms` returns `K`
knots equal to the specified percentiles of `x`'s empirical distribution and a
design matrix with exactly `K-1` columns whose column 0 is `x` unchanged and
whose column `i` (for `i = 1..K-2`) is the restricted cubic spline term
`max(x-k_i,0)^3 - max(x-k_{K-2},0)^3*(k_{K-1}-k_i)/(k_{K-1}-k_{K-2})
 + max(x-k_{K-1},0)^3*(k_{K-2}-k_i)/(k_{K-1}-k_{K-2})`. -/
theorem create_spline_terms_spec (x : List ℚ) (K : ℕ)
    (hx : x ≠ []) (hK : K = 3 ∨ K = 4 ∨ K = 5)
    (hdistinct : ((create_spline_terms x K).2).Pairwise (· ≠ ·)) :
    (create_spline_terms x K).2.length = K ∧
    (K = 3 → (create_spline_terms x K).2 =
      [npPercentile x 10, npPercentile x 50, npPercentile x 90]) ∧
    (K = 4 → (create_spline_terms x K).2 =
      [npPercentile x 5, npPercentile x 35, npPercentile x 65, npPercentile x 95]) ∧
    (K = 5 → (create_spline_terms x K).2 =
      [npPercentile x 5, npPercentile x (55/2), npPercentile x 50,
       npPercentile x (145/2), npPercentile x 95]) ∧
    (create_spline_terms x K).1.length = K - 1 ∧
    (create_spline_terms x K).1.getD 0 [] = x ∧
    (∀ i, 1 ≤ i → i ≤ K - 2 →
      (create_spline_terms x K).1.getD i [] = x.map (fun xv =>
        (max (xv - (create_spline_terms x K).2.getD i 0) 0) ^ 3
          - (max (xv - (create_spline_terms x K).2.getD (K - 2) 0) 0) ^ 3
              * ((create_spline_terms x K).2.getD (K - 1) 0
                  - (create_spline_terms x K).2.getD i 0)
              / ((create_spline_terms x K).2.getD (K - 1) 0
                  - (create_spline_terms x K).2.getD (K - 2) 0)
          + (max (xv - (create_spline_terms x K).2.getD (K - 1) 0) 0) ^ 3
              * ((create_spline_terms x K).2.getD (K - 2) 0
                  - (create_spline_terms x K).2.getD i 0)
              / ((create_spline_terms x K).2.getD (K - 1) 0
                  - (create_spline_terms x K).2.getD (K - 2) 0))) := by
  rcases hK with h | h | h <;> subst h
  · refine ⟨rfl, fun _ => rfl, fun h => by omega, fun h => by omega, rfl, rfl, ?_⟩
    intro i h1 h2
    interval_cases i
    rfl
  · refine ⟨rfl, fun h => by omega, fun _ => rfl, fun h => by omega, rfl, rfl, ?_⟩
    intro i h1 h2
    interval_cases i <;> rfl
  · refine ⟨rfl, fun h => by omega, fun h => by omega, fun _ => rfl, rfl, rfl, ?_⟩
    intro i h1 h2
    interval_cases i <;> rfl

/-- Witness for C3 at the concrete input `x = [0,1,...,19]`, `K = 4`. -/
theorem create_spline_terms_spec_witness :
    (c3x ≠ [] ∧ ((4 : ℕ) = 3 ∨ (4 : ℕ) = 4 ∨ (4 : ℕ) = 5) ∧
      ((create_spline_terms c3x 4).2).Pairwise (· ≠ ·)) ∧
    (create_spline_terms c3x 4).2.length = 4 := by
  have h1 : c3x ≠ [] := by decide
  have h2 : (4 : ℕ) = 3 ∨ (4 : ℕ) = 4 ∨ (4 : ℕ) = 5 := Or.inr (Or.inl rfl)
  have h3 : ((create_spline_terms c3x 4).2).Pairwise (· ≠ ·) :=
    of_decide_eq_true (by with_unfolding_all rfl)
  exact ⟨⟨h1, h2, h3⟩, (create_spline_terms_spec c3x 4 h1 h2 h3).1⟩

/-- `floorNatQ` is bounded by any natural-number upper bound of its argument. -/
theorem floorNatQ_le (q : ℚ) (m : ℕ) (h : q ≤ (m : ℚ)) : floorNatQ q ≤ m := by
  unfold floorNatQ
  rcases le_or_lt q.num 0 with hneg | hpos
  · have : q.num.toNat = 0 := Int.toNat_of_nonpos hneg
    simp [this]
  · have hden : 0 < q.den := q.den_pos
    have hnum : q.num ≤ (m : ℤ) * (q.den : ℤ) := by
      rw [Rat.le_def] at h
      simpa using h
    have hnat : q.num.toNat ≤ m * q.den := by
      have h2 := Int.toNat_le_toNat hnum
      have h3 : (m : ℤ) * (q.den : ℤ) = ((m * q.den : ℕ) : ℤ) := by push_cast; ring
      rw [h3, Int.toNat_natCast] at h2
      exact h2
    calc q.num.toNat / q.den ≤ m * q.den / q.den := Nat.div_le_div_right hnat
    _ = m := Nat.mul_div_cancel m hden

/-- On a constant vector every percentile equals the constant. -/
theorem npPercentile_const (x : List ℚ) (c p : ℚ) (hx : x ≠ [])
    (hc : ∀ v ∈ x, v = c) (hp0 : 0 ≤ p) (hp1 : p ≤ 100) :
    npPercentile x p = c := by
  unfold npPercentile
  set s := List.insertionSort (· ≤ ·) x with hs
  have hmem : ∀ v ∈ s, v = c := by
    intro v hv
    exact hc v ((List.perm_insertionSort (· ≤ ·) x).mem_iff.mp hv)
  have hlen : s.length = x.length := by
    rw [hs]; exact List.length_insertionSort (· ≤ ·) x
  have hxpos : 0 < x.length := List.length_pos.mpr hx
  have hnpos : 0 < s.length := by omega
  have hfloor : floorNatQ (p / 100 * ((s.length : ℚ) - 1)) ≤ s.length - 1 := by
    apply floorNatQ_le
    have h100 : p / 100 ≤ 1 := by
      rw [div_le_one (by norm_num : (0:ℚ) < 100)]; exact hp1
    have hnn : (0:ℚ) ≤ (s.length : ℚ) - 1 := by
      have : (1:ℚ) ≤ (s.length : ℚ) := by exact_mod_cast hnpos
      linarith
    have : p / 100 * ((s.length : ℚ) - 1) ≤ 1 * ((s.length : ℚ) - 1) :=
      mul_le_mul_of_nonneg_right h100 hnn
    have hcast : ((s.length - 1 : ℕ) : ℚ) = (s.length : ℚ) - 1 := by
      have : (1:ℕ) ≤ s.length := hnpos
      push_cast [Nat.cast_sub this]
      ring
    rw [hcast]
    linarith
  have hi : floorNatQ (p / 100 * ((s.length : ℚ) - 1)) < s.length := by omega
  have hj : min (floorNatQ (p / 100 * ((s.length : ℚ) - 1)) + 1) (s.length - 1) < s.length := by
    have : min (floorNatQ (p / 100 * ((s.length : ℚ) - 1)) + 1) (s.length - 1) ≤ s.length - 1 :=
      min_le_right _ _
    omega
  have hlo : s.getD (floorNatQ (p / 100 * ((s.length : ℚ) - 1))) 0 = c := by
    rw [List.getD_eq_getElem s 0 hi]
    exact hmem _ (List.getElem_mem hi)
  have hhi : s.getD (min (floorNatQ (p / 100 * ((s.length : ℚ) - 1)) + 1) (s.length - 1)) 0 = c := by
    rw [List.getD_eq_getElem s 0 hj]
    exact hmem _ (List.getElem_mem hj)
  simp only [hlo, hhi]
  ring

/-- C5 (amended): on a constant exposure vector the spline builder does not
fail; it returns all four knots equal (degenerate zero knot spacing,
`k_3 = k_2`) together with a full 3-column basis whose first column is `x`.
There is no error outcome: the division by zero happens silently (in the
floating-point source it yields non-finite values; no `DegenerateKnotsError`
exists anywhere in the code). -/
theorem create_spline_terms_degenerate (x : List ℚ) (c : ℚ) (hx : x ≠ [])
    (hc : ∀ v ∈ x, v = c) :
    (create_spline_terms x 4).2 = [c, c, c, c] ∧
    (create_spline_terms x 4).2.getD 3 0 = (create_spline_terms x 4).2.getD 2 0 ∧
    (create_spline_terms x 4).1.length = 3 ∧
    (create_spline_terms x 4).1.getD 0 [] = x := by
  have h5 : npPercentile x 5 = c := npPercentile_const x c 5 hx hc (by norm_num) (by norm_num)
  have h35 : npPercentile x 35 = c := npPercentile_const x c 35 hx hc (by norm_num) (by norm_num)
  have h65 : npPercentile x 65 = c := npPercentile_const x c 65 hx hc (by norm_num) (by norm_num)
  have h95 : npPercentile x 95 = c := npPercentile_const x c 95 hx hc (by norm_num) (by norm_num)
  have hknots : (create_spline_terms x 4).2 = [c, c, c, c] := by
    show (splinePercentiles 4).map (npPercentile x) = [c, c, c, c]
    simp [splinePercentiles, h5, h35, h65, h95]
  exact ⟨hknots, by rw [hknots]; rfl, rfl, rfl⟩

/-- Witness for C5's amended theorem at `x = [5,5,5,5,5]` (all values
identical, hence ≥ 95% tied). -/
theorem create_spline_terms_degenerate_witness :
    ([(5:ℚ), 5, 5, 5, 5] ≠ [] ∧ (∀ v ∈ [(5:ℚ), 5, 5, 5, 5], v = 5)) ∧
    (create_spline_terms [(5:ℚ), 5, 5, 5, 5] 4).2 = [5, 5, 5, 5] := by
  have h1 : [(5:ℚ), 5, 5, 5, 5] ≠ [] := by simp
  have h2 : ∀ v ∈ [(5:ℚ), 5, 5, 5, 5], v = 5 := by intro v hv; simpa using hv
  exact ⟨⟨h1, h2⟩, (create_spline_terms_degenerate [(5:ℚ), 5, 5, 5, 5] 5 h1 h2).1⟩

/-- C5 counterexample: at the concrete degenerate input `x = [5]*20`
(100% identical values) the builder returns normally: the knots come back
with the last two equal (`k_3 = k_2 = 5`, zero spacing) and a 3-column basis
is produced — there is no reported failure, contradicting the claim that a
`DegenerateKnotsError` is raised instead of returning a basis. -/
theorem create_spline_terms_degenerate_counterexample :
    (create_spline_terms (List.replicate 20 (5:ℚ)) 4).2 = [5, 5, 5, 5] ∧
    (create_spline_terms (List.replicate 20 (5:ℚ)) 4).1.length = 3 ∧
    (create_spline_terms (List.replicate 20 (5:ℚ)) 4).1.getD 0 [] = List.replicate 20 5 := by
  refine ⟨?_, ?_, ?_⟩ <;> with_unfolding_all rfl

/-- C2 (code bug, evaluated at the failing input): for fitting data
`x = [0, 0, 0, 10]` the prediction step's spline basis is built from knots
recomputed from the grid's percentiles, which differ from the knot locations
computed during fitting (`[0, 0, 0, 17/2]`) that are passed in and ignored. -/
theorem calculate_rcs_predictions_recomputes_knots :
    (calculate_rcs_predictions_spline
        (npPercentile [0, 0, 0, 10] 5, npPercentile [0, 0, 0, 10] 95)
        ((create_spline_terms [0, 0, 0, 10] 4).2)).2
      ≠ (create_spline_terms [0, 0, 0, 10] 4).2 :=
  of_decide_eq_true (by with_unfolding_all rfl)

/-- C4: at the reference grid index (the grid length integer-divided by 2) the
odds ratio is exactly `exp(0) = 1` by construction and, for a nonnegative
pointwise standard error there, the CI bounds bracket 1. -/
theorem orStep_reference (n : ℕ) (predLogit predSe : ℕ → ℝ)
    (h : 0 ≤ predSe (n / 2)) :
    (orStep n predLogit predSe).1 (n / 2) = 1 ∧
    (orStep n predLogit predSe).2.1 (n / 2) ≤ 1 ∧
    1 ≤ (orStep n predLogit predSe).2.2 (n / 2) := by
  have hse : 0 ≤ (196/100 : ℝ) * predSe (n / 2) := mul_nonneg (by norm_num) h
  refine ⟨?_, ?_, ?_⟩
  · show Real.exp (predLogit (n / 2) - predLogit (n / 2)) = 1
    rw [sub_self, Real.exp_zero]
  · show Real.exp (predLogit (n / 2) - 196/100 * predSe (n / 2) - predLogit (n / 2)) ≤ 1
    rw [show (1:ℝ) = Real.exp 0 from Real.exp_zero.symm]
    exact Real.exp_le_exp.mpr (by linarith)
  · show 1 ≤ Real.exp (predLogit (n / 2) + 196/100 * predSe (n / 2) - predLogit (n / 2))
    rw [show (1:ℝ) = Real.exp 0 from Real.exp_zero.symm]
    exact Real.exp_le_exp.mpr (by linarith)

/-- Witness for C4 on the 100-point grid with the zero logit and zero standard
error curves. -/
theorem orStep_reference_witness :
    (0:ℝ) ≤ (fun _ : ℕ => (0:ℝ)) (100 / 2) ∧
    ((orStep 100 (fun _ => 0) (fun _ => 0)).1 (100 / 2) = 1 ∧
     (orStep 100 (fun _ => 0) (fun _ => 0)).2.1 (100 / 2) ≤ 1 ∧
     1 ≤ (orStep 100 (fun _ => 0) (fun _ => 0)).2.2 (100 / 2)) :=
  ⟨le_refl 0, orStep_reference 100 (fun _ => 0) (fun _ => 0) (le_refl 0)⟩

/-- C6: whenever fewer than 50 complete rows survive the missing-value filter,
the fitter returns the failure outcome (`None` for every component, the
outcome the specification names `InsufficientDataError`): no coefficients,
knots or covariate metadata are produced. -/
theorem fit_insufficient_data (fitOk : GLMCall → Bool) (t : DataTable)
    (h : (applyMask (maskList t) t.exposure).length < 50) :
    fit_weighted_rcs_model fitOk t = none := by
  simp only [fit_weighted_rcs_model]
  rw [if_pos h]

/-- Witness for C6 at the empty table. -/
theorem fit_insufficient_data_witness :
    (applyMask (maskList (⟨[], [], [], []⟩ : DataTable))
        (DataTable.exposure ⟨[], [], [], []⟩)).length < 50 ∧
    fit_weighted_rcs_model (fun _ => true) ⟨[], [], [], []⟩ = none := by
  have h : (applyMask (maskList (⟨[], [], [], []⟩ : DataTable))
      (DataTable.exposure ⟨[], [], [], []⟩)).length < 50 := by decide
  exact ⟨h, fit_insufficient_data (fun _ => true) ⟨[], [], [], []⟩ h⟩

/-- C1 (code bug, evaluated at the failing input): on a valid 50-complete-row
table with non-constant survey weights the fitter constructs the GLM call with
`family=Binomial` but with **no** weight argument — `freq_weights` and
`var_weights` are both absent — so the solved coefficients are the unweighted
GLM solution; the survey-weight column is present and non-constant (its
normalized version, computed at line 176, is never passed to the model). -/
theorem fit_weighted_rcs_model_is_unweighted :
    ((fit_weighted_rcs_model (fun _ => true) c1table).map
        (fun m => (m.glm.freq_weights, m.glm.var_weights, m.glm.familyBinomial)))
      = some (none, none, true) ∧
    (applyMask (maskList c1table) c1table.weight).getD 0 0 ≠
      (applyMask (maskList c1table) c1table.weight).getD 1 0 ∧
    (applyMask (maskList c1table) c1table.exposure).length = 50 := by
  refine ⟨?_, ?_, ?_⟩
  · with_unfolding_all rfl
  · exact of_decide_eq_true (by with_unfolding_all rfl)
  · with_unfolding_all rfl

/-- C8 (code bug, evaluated at the failing input): for categorical values
`[1, 2, 2]` the one-hot encoding drops the sorted-first label 1
(`drop_first=True`) while the metadata records the mode 2 as the reference
label; the dropped level and the recorded reference disagree.  The same
mismatch shows up through the full fitter on `c8table`. -/
theorem categorical_reference_mismatch :
    droppedLevel c8vals = 1 ∧
    pandasMode c8vals = 2 ∧
    dummyCategories c8vals = [2] ∧
    droppedLevel c8vals ≠ pandasMode c8vals ∧
    (encodeCovariate (List.replicate 3 true)
        (CovCol.categorical [some 1, some 2, some 2])).2
      = CovariateInfo.categorical [2] 2 ∧
    ((fit_weighted_rcs_model (fun _ => true) c8table).map
        (fun m => m.covariate_info))
      = some [CovariateInfo.categorical [2] 2] ∧
    droppedLevel (applyMask (maskList c8table) c8catvals) = 1 := by
  refine ⟨?_, ?_, ?_, ?_, ?_, ?_, ?_⟩
  · with_unfolding_all rfl
  · with_unfolding_all rfl
  · with_unfolding_all rfl
  · exact of_decide_eq_true (by with_unfolding_all rfl)
  · with_unfolding_all rfl
  · with_unfolding_all rfl
  · with_unfolding_all rfl

/-- `scatterBack` preserves missing entries position-wise, whatever the
adjusted values are. -/
theorem scatterBack_none (col : List (Option ℚ)) (adj : List ℚ) (k : ℕ)
    (h : col.getD k (some 0) = none) :
    (scatterBack col adj).getD k (some 0) = none := by
  induction col generalizing adj k with
  | nil => simp [List.getD] at h
  | cons o col ih =>
    cases o with
    | none =>
      cases k with
      | zero => rfl
      | succ k =>
        show (none :: scatterBack col adj).getD (k+1) (some 0) = none
        rw [List.getD_cons_succ]
        exact ih adj k (by rwa [List.getD_cons_succ] at h)
    | some p =>
      cases k with
      | zero => simp [List.getD_cons_zero] at h
      | succ k =>
        have h2 : col.getD k (some 0) = none := by rwa [List.getD_cons_succ] at h
        cases adj with
        | nil =>
          show (none :: scatterBack col []).getD (k+1) (some 0) = none
          rw [List.getD_cons_succ]
          exact ih [] k h2
        | cons a adj =>
          show (some a :: scatterBack col adj).getD (k+1) (some 0) = none
          rw [List.getD_cons_succ]
          exact ih adj k h2

/-- C9: with exactly one spline term the nonlinearity p-value is reported as
the missing value (`none` — not zero and not an error) while the overall test
is still computed; and the downstream FDR aggregation tolerates missing
p-values: a missing position stays missing in the adjusted column instead of
breaking the correction. -/
theorem calculate_p_values_single_spline (wald : List (List ℚ) → Option ℚ)
    (nParams : ℕ) (p : ℚ) (hp : wald (overallMatrix nParams 1) = some p) :
    calculate_p_values wald nParams 1 = (some p, none) ∧
    (calculate_p_values wald nParams 1).2 = none ∧
    (∀ col : List (Option ℚ), ∀ k, col.getD k (some 0) = none →
      (fdrColumn col).getD k (some 0) = none) := by
  have hmain : calculate_p_values wald nParams 1 = (some p, none) := by
    unfold calculate_p_values
    rw [hp]
    simp
  exact ⟨hmain, by rw [hmain], fun col k h => scatterBack_none col _ k h⟩

/-- Witness for C9 with a constant Wald oracle and 5 parameters. -/
theorem calculate_p_values_single_spline_witness :
    (fun _ : List (List ℚ) => some (1:ℚ)) (overallMatrix 5 1) = some 1 ∧
    (calculate_p_values (fun _ => some (1:ℚ)) 5 1 = (some 1, none) ∧
     (calculate_p_values (fun _ => some (1:ℚ)) 5 1).2 = none ∧
     (∀ col : List (Option ℚ), ∀ k, col.getD k (some 0) = none →
       (fdrColumn col).getD k (some 0) = none)) :=
  ⟨rfl, calculate_p_values_single_spline (fun _ => some (1:ℚ)) 5 1 rfl⟩

/-- `cumMinRev` preserves length. -/
theorem cumMinRev_length (l : List ℚ) : (cumMinRev l).length = l.length := by
  induction l with
  | nil => rfl
  | cons q qs ih =>
    unfold cumMinRev
    cases h : cumMinRev qs with
    | nil =>
      rw [h] at ih
      simp at ih
      simp [ih]
    | cons r rs =>
      rw [h] at ih
      simp at ih ⊢
      omega

/-- `bhScale` preserves length. -/
theorem bhScale_length (m i : ℕ) (l : List ℚ) : (bhScale m i l).length = l.length := by
  induction l generalizing i with
  | nil => rfl
  | cons p ps ih => simp [bhScale, ih]

/-- Unfolding equation for `cumMinRev` on a cons cell. -/
theorem cumMinRev_cons (q : ℚ) (l : List ℚ) :
    cumMinRev (q :: l) = match cumMinRev l with
      | [] => [q]
      | r :: rs => min q r :: r :: rs := rfl

/-- The sorted p-values are element-wise below the scaled-and-minimized
Benjamini-Hochberg sequence (before clipping): each `p_(j) * m / (i+j+1)`
with `i+j+1 ≤ m` is at least `p_(j)`, and minima over later (larger sorted)
entries stay above the current entry. -/
theorem le_cumMinRev_bhScale (m i : ℕ) (l : List ℚ) (hml : i + l.length ≤ m)
    (hs : l.Sorted (· ≤ ·)) (hnn : ∀ p ∈ l, 0 ≤ p) :
    List.Forall₂ (· ≤ ·) l (cumMinRev (bhScale m i l)) := by
  induction l generalizing i with
  | nil => exact List.Forall₂.nil
  | cons p ps ih =>
    have hp0 : 0 ≤ p := hnn p (List.mem_cons_self p ps)
    have him : i + 1 ≤ m := by
      simp only [List.length_cons] at hml
      omega
    have hpq : p ≤ p * (m : ℚ) / ((i : ℚ) + 1) := by
      rw [mul_div_assoc]
      have hi1 : (0:ℚ) < (i : ℚ) + 1 := by positivity
      have hle : (1:ℚ) ≤ (m : ℚ) / ((i : ℚ) + 1) := by
        rw [le_div_iff₀ hi1]
        have : ((i + 1 : ℕ) : ℚ) ≤ (m : ℚ) := by exact_mod_cast him
        push_cast at this
        linarith
      calc p = p * 1 := by ring
      _ ≤ p * ((m : ℚ) / ((i : ℚ) + 1)) := mul_le_mul_of_nonneg_left hle hp0
    rw [List.sorted_cons] at hs
    cases ps with
    | nil => exact List.Forall₂.cons hpq List.Forall₂.nil
    | cons p2 ps2 =>
      have hml2 : (i + 1) + (p2 :: ps2).length ≤ m := by
        simp only [List.length_cons] at hml ⊢
        omega
      have ihh := ih (i + 1) hml2 hs.2
        (fun v hv => hnn v (List.mem_cons_of_mem p hv))
      cases hrc : cumMinRev (bhScale m (i + 1) (p2 :: ps2)) with
      | nil =>
        exfalso
        have := cumMinRev_length (bhScale m (i + 1) (p2 :: ps2))
        rw [hrc, bhScale_length] at this
        simp at this
      | cons r rs =>
        show List.Forall₂ (· ≤ ·) (p :: p2 :: ps2)
          (cumMinRev (p * (m : ℚ) / ((i : ℚ) + 1) :: bhScale m (i + 1) (p2 :: ps2)))
        rw [cumMinRev_cons, hrc]
        rw [hrc] at ihh
        have hp2r : p2 ≤ r := by
          cases ihh with
          | cons hab htl => exact hab
        refine List.Forall₂.cons ?_ ihh
        exact le_min hpq (le_trans (hs.1 p2 (List.mem_cons_self p2 ps2)) hp2r)

/-- Clipping the adjusted values at 1 keeps them above p-values that are
themselves at most 1. -/
theorem forall₂_le_clip (l c : List ℚ) (h : List.Forall₂ (· ≤ ·) l c)
    (h1 : ∀ p ∈ l, p ≤ 1) :
    List.Forall₂ (· ≤ ·) l (c.map (fun q => min q 1)) := by
  induction l generalizing c with
  | nil => cases h; exact List.Forall₂.nil
  | cons a l ih =>
    cases h with
    | cons hab htl =>
      exact List.Forall₂.cons (le_min hab (h1 a (List.mem_cons_self a l)))
        (ih _ htl (fun p hp => h1 p (List.mem_cons_of_mem a hp)))

/-- A member of `l.enum` is the pair of a valid index and the value there. -/
theorem mem_enum_eq_getD (l : List ℚ) (pr : ℕ × ℚ) (h : pr ∈ l.enum) :
    pr.1 < l.length ∧ pr.2 = l.getD pr.1 0 := by
  rcases List.mem_iff_getElem.mp h with ⟨j, hj, hje⟩
  have hj2 : j < l.length := by rwa [List.enum_length] at hj
  rw [List.getElem_enum l j hj] at hje
  subst hje
  exact ⟨hj2, (List.getD_eq_getElem l 0 hj2).symm⟩

/-- `fdr_bh` preserves length. -/
theorem fdr_bh_length (ps : List ℚ) : (fdr_bh ps).length = ps.length := by
  simp [fdr_bh]

/-- Element-wise over the (sorted, corrected) zip, the corrected value
dominates the sorted p-value. -/
theorem bh_zip_le (ps : List ℚ) (hb : ∀ p ∈ ps, 0 ≤ p ∧ p ≤ 1) :
    ∀ a ∈ (bhSorted ps).zip (bhCorr ps), a.1.2 ≤ a.2 := by
  have hperm : (bhSorted ps).Perm ps.enum := List.perm_insertionSort _ _
  have hslen : (bhSorted ps).length = ps.length := by
    rw [bhSorted, List.length_insertionSort, List.enum_length]
  have hsorted2 : ((bhSorted ps).map Prod.snd).Sorted (· ≤ ·) := by
    have hst := List.sorted_insertionSort (fun (a b : ℕ × ℚ) => a.2 ≤ b.2) ps.enum
    exact List.pairwise_map.mpr hst
  have hmemps : ∀ v ∈ (bhSorted ps).map Prod.snd, v ∈ ps := by
    intro v hv
    rcases List.mem_map.mp hv with ⟨pr, hpr, hpr2⟩
    have hpe : pr ∈ ps.enum := hperm.mem_iff.mp hpr
    rw [← hpr2]
    exact List.snd_mem_of_mem_enum hpe
  have hcore := le_cumMinRev_bhScale ps.length 0 ((bhSorted ps).map Prod.snd)
    (by simp [hslen]) hsorted2 (fun v hv => (hb v (hmemps v hv)).1)
  have hclip := forall₂_le_clip _ _ hcore (fun v hv => (hb v (hmemps v hv)).2)
  have hf2 : List.Forall₂ (fun (pr : ℕ × ℚ) c => pr.2 ≤ c) (bhSorted ps) (bhCorr ps) :=
    List.forall₂_map_left_iff.mp hclip
  intro a ha
  exact (List.forall₂_iff_zip.mp hf2).2 ha

/-- C7 core: the Benjamini-Hochberg adjusted p-values dominate the raw ones
element-wise. -/
theorem fdr_bh_ge (ps : List ℚ) (hb : ∀ p ∈ ps, 0 ≤ p ∧ p ≤ 1) :
    List.Forall₂ (· ≤ ·) ps (fdr_bh ps) := by
  rw [List.forall₂_iff_get]
  refine ⟨(fdr_bh_length ps).symm, ?_⟩
  intro k h1 h2
  have hperm : (bhSorted ps).Perm ps.enum := List.perm_insertionSort _ _
  have hslen : (bhSorted ps).length = ps.length := by
    rw [bhSorted, List.length_insertionSort, List.enum_length]
  have hclen : (bhCorr ps).length = ps.length := by
    rw [bhCorr]
    simp [cumMinRev_length, bhScale_length, hslen]
  -- the enum pair at position k is in the sorted list
  have hke : k < ps.enum.length := by rw [List.enum_length]; exact h1
  have hmem_enum : (k, ps.getD k 0) ∈ ps.enum := by
    rw [List.getD_eq_getElem ps 0 h1]
    rw [← List.getElem_enum ps k hke]
    exact List.getElem_mem hke
  have hmem_sorted : (k, ps.getD k 0) ∈ bhSorted ps := hperm.mem_iff.mpr hmem_enum
  -- it appears in the zip, so find? succeeds
  rcases List.mem_iff_getElem.mp hmem_sorted with ⟨j, hj, hje⟩
  have hjz : j < ((bhSorted ps).zip (bhCorr ps)).length := by
    rw [List.length_zip, hslen, hclen]
    simp
    omega
  have hzmem : ((k, ps.getD k 0), (bhCorr ps).get ⟨j, by rw [hclen]; omega⟩) ∈
      (bhSorted ps).zip (bhCorr ps) := by
    have := List.getElem_mem hjz
    rwa [List.getElem_zip, hje] at this
  have hfs : (((bhSorted ps).zip (bhCorr ps)).find? (fun a => a.1.1 == k)).isSome := by
    rw [List.find?_isSome]
    exact ⟨_, hzmem, by simp⟩
  rcases Option.isSome_iff_exists.mp hfs with ⟨a, hfa⟩
  have hamem : a ∈ (bhSorted ps).zip (bhCorr ps) := List.mem_of_find?_eq_some hfa
  have hak : a.1.1 = k := by
    have := List.find?_some hfa
    simpa using this
  have ha1 : a.1 ∈ bhSorted ps := (List.of_mem_zip hamem).1
  have ha1e : a.1 ∈ ps.enum := hperm.mem_iff.mp ha1
  have hval := mem_enum_eq_getD ps a.1 ha1e
  have hbound := bh_zip_le ps hb a hamem
  -- compute the k-th entry of fdr_bh
  have hgoal : (fdr_bh ps).get ⟨k, h2⟩ = a.2 := by
    have h2m : k < (List.range ps.length).length := by
      rw [List.length_range]
      exact h1
    show ((List.range ps.length).map (fun k =>
      ((((bhSorted ps).zip (bhCorr ps)).find? (fun a => a.1.1 == k)).map
        Prod.snd).getD 0))[k] = a.2
    rw [List.getElem_map, List.getElem_range, hfa]
    rfl
  rw [List.get_eq_getElem, List.get_eq_getElem]
  rw [← List.get_eq_getElem (fdr_bh ps) ⟨k, h2⟩, hgoal]
  have : ps[k] = ps.getD k 0 := (List.getD_eq_getElem ps 0 h1).symm
  rw [this]
  rw [← hak, ← hval.2]
  exact hbound

/-- The scatter step writes each adjusted value back to the position of its
raw value and leaves missing positions missing: element-wise, a present raw
p-value is related (`≤`) to its present adjusted value. -/
theorem scatterBack_spec (col : List (Option ℚ)) (adj : List ℚ)
    (h : List.Forall₂ (· ≤ ·) (col.filterMap id) adj) :
    List.Forall₂ optRel col (scatterBack col adj) := by
  induction col generalizing adj with
  | nil => exact List.Forall₂.nil
  | cons o col ih =>
    cases o with
    | none =>
      refine List.Forall₂.cons trivial (ih adj ?_)
      simpa using h
    | some p =>
      have h2 : List.Forall₂ (· ≤ ·) (p :: col.filterMap id) adj := by simpa using h
      cases h2 with
      | cons hab htl => exact List.Forall₂.cons hab (ih _ htl)

/-- C7: the corrector applies Benjamini-Hochberg separately to the non-missing
entries of the overall-p family and of the nonlinearity-p family (each result
depends only on its own family — never a joint correction), writes every
adjusted value back at the position of its raw value, leaves missing entries
missing, and every adjusted p-value dominates its raw p-value. -/
theorem fdr_correction_spec (ov nl : List (Option ℚ))
    (hov : ∀ o ∈ ov, pvalOk o) (hnl : ∀ o ∈ nl, pvalOk o) :
    List.Forall₂ optRel ov (fdrCorrect ov nl).1 ∧
    List.Forall₂ optRel nl (fdrCorrect ov nl).2 ∧
    (∀ nl2, (fdrCorrect ov nl2).1 = (fdrCorrect ov nl).1) ∧
    (∀ ov2, (fdrCorrect ov2 nl).2 = (fdrCorrect ov nl).2) := by
  have key : ∀ col : List (Option ℚ), (∀ o ∈ col, pvalOk o) →
      List.Forall₂ optRel col (fdrColumn col) := by
    intro col hcol
    apply scatterBack_spec
    apply fdr_bh_ge
    intro p hp
    rcases List.mem_filterMap.mp hp with ⟨o, ho, hid⟩
    cases o with
    | none => simp at hid
    | some q =>
      simp only [id] at hid
      injection hid with hq
      subst hq
      exact hcol _ ho
  exact ⟨key ov hov, key nl hnl, fun nl2 => rfl, fun ov2 => rfl⟩

/-- Witness for C7 at the concrete families `[1, missing, 0]` and
`[missing, 1]`. -/
theorem fdr_correction_spec_witness :
    ((∀ o ∈ [some (1:ℚ), none, some 0], pvalOk o) ∧
     (∀ o ∈ [none, some (1:ℚ)], pvalOk o)) ∧
    List.Forall₂ optRel [some (1:ℚ), none, some 0]
      (fdrCorrect [some (1:ℚ), none, some 0] [none, some (1:ℚ)]).1 := by
  have h1 : ∀ o ∈ [some (1:ℚ), none, some 0], pvalOk o :=
    of_decide_eq_true (by with_unfolding_all rfl)
  have h2 : ∀ o ∈ [none, some (1:ℚ)], pvalOk o :=
    of_decide_eq_true (by with_unfolding_all rfl)
  exact ⟨⟨h1, h2⟩,
    (fdr_correction_spec [some (1:ℚ), none, some 0] [none, some (1:ℚ)] h1 h2).1⟩

/-- Every record produced by the per-exposure loop carries the cohort label it
was produced under. -/
theorem analyzeExposure_outcome (wald : List (List ℚ) → Option ℚ)
    (fitOk : GLMCall → Bool) (d : MergedData) (label : Bool) (e : ℕ)
    (r : ResultRecord) (h : analyzeExposure wald fitOk d label e = some r) :
    r.outcome = label := by
  unfold analyzeExposure at h
  split at h
  · split at h
    · simp at h
    · split at h
      · simp at h
      · injection h with h2
        rw [← h2]
  · simp at h

/-- Records of one cohort's result list carry that cohort's label. -/
theorem cohortResults_outcome (wald : List (List ℚ) → Option ℚ)
    (fitOk : GLMCall → Bool) (d : MergedData) (label : Bool) (r : ResultRecord)
    (h : r ∈ cohortResults wald fitOk d label) : r.outcome = label := by
  unfold cohortResults at h
  split at h
  · simp at h
  · rcases List.mem_filterMap.mp h with ⟨e, he, hae⟩
    exact analyzeExposure_outcome wald fitOk d label e r hae

/-- C10: a cohort whose subset has fewer than 100 rows is skipped before any
per-exposure fitting: its result list is empty regardless of the per-exposure
50-row checks and of the solver, and the full batch contains no record for
that cohort. -/
theorem cohort_skipped_when_small (wald : List (List ℚ) → Option ℚ)
    (fitOk : GLMCall → Bool) (d : MergedData) (label : Bool)
    (h : cohortSize d label < 100) :
    cohortResults wald fitOk d label = [] ∧
    ∀ r ∈ mainResults wald fitOk d, r.outcome ≠ label := by
  have hempty : cohortResults wald fitOk d label = [] := by
    unfold cohortResults
    rw [if_pos h]
  refine ⟨hempty, ?_⟩
  intro r hr
  unfold mainResults at hr
  cases label with
  | true =>
    rcases List.mem_append.mp hr with hr1 | hr1
    · rw [hempty] at hr1
      simp at hr1
    · have := cohortResults_outcome wald fitOk d false r hr1
      rw [this]
      simp
  | false =>
    rcases List.mem_append.mp hr with hr1 | hr1
    · have := cohortResults_outcome wald fitOk d true r hr1
      rw [this]
      simp
    · rw [hempty] at hr1
      simp at hr1

/-- Witness for C10 at a one-row merged table. -/
theorem cohort_skipped_when_small_witness :
    cohortSize c10data true < 100 ∧
    (cohortResults (fun _ : List (List ℚ) => (none : Option ℚ))
        (fun _ => true) c10data true = [] ∧
     ∀ r ∈ mainResults (fun _ : List (List ℚ) => (none : Option ℚ))
        (fun _ => true) c10data, r.outcome ≠ true) :=
  ⟨by decide, cohort_skipped_when_small _ _ c10data true (by decide)⟩
